import Mathlib

/-!
Verification of the chess-cli turn-exchange protocol (src/main.rs).

The rules engine (`chess_lib::chess::Board`) is an external opaque
collaborator; it is modelled as an abstract `Engine` record of pure
operations, universally quantified in all theorems.  The three loop
variants (`singleplayer`, `server`, `client`), the move codec
(`String::from_utf8_lossy` over the fixed 4-byte buffer, `str::trim`)
and the two renderers (`draw_for_white`, `draw_for_black`) are embedded
as pure functions; one loop iteration consumes the environment inputs
(stdin line, stream write result, stream read result) and returns the
loop outcome together with the trace of engine/stream interactions.
-/

namespace ChessCli

/-! ### Rust string primitives -/

/-- The Unicode `White_Space` code points, as used by Rust's `str::trim`
and `str::split_whitespace` (via `char::is_whitespace`). -/
def rustWhitespace : List Nat :=
  [9, 10, 11, 12, 13, 32, 0x85, 0xA0, 0x1680,
   0x2000, 0x2001, 0x2002, 0x2003, 0x2004, 0x2005, 0x2006, 0x2007,
   0x2008, 0x2009, 0x200A, 0x2028, 0x2029, 0x202F, 0x205F, 0x3000]

def isRustWhitespace (c : Char) : Bool := rustWhitespace.contains c.toNat

/-- `str::trim`: remove leading and trailing whitespace. -/
def trimChars (l : List Char) : List Char :=
  ((l.dropWhile isRustWhitespace).reverse.dropWhile isRustWhitespace).reverse

def rustTrim (s : String) : String := String.mk (trimChars s.data)

/-- `str::split_whitespace`: maximal runs of non-whitespace characters.
The accumulator holds the current word, reversed. -/
def splitWSAux : List Char → List Char → List String
  | [], [] => []
  | [], w => [String.mk w.reverse]
  | c :: rest, w =>
    if isRustWhitespace c then
      match w with
      | [] => splitWSAux rest []
      | _ => String.mk w.reverse :: splitWSAux rest []
    else splitWSAux rest (c :: w)

def splitWS (s : String) : List String := splitWSAux s.data []

/-! ### `String::from_utf8_lossy` -/

def replChar : Char := Char.ofNat 0xFFFD

def isCont (b : Nat) : Bool := 0x80 ≤ b ∧ b < 0xC0

/-- One step of lossy UTF-8 decoding, fuelled by the input length.
Invalid sequences are replaced by U+FFFD following Rust's
maximal-valid-prefix rule. -/
def utf8LossyAux : Nat → List Nat → List Char
  | 0, _ => []
  | _ + 1, [] => []
  | fuel + 1, b :: rest =>
    if b < 0x80 then Char.ofNat b :: utf8LossyAux fuel rest
    else if 0xC2 ≤ b ∧ b ≤ 0xDF then
      match rest with
      | [] => [replChar]
      | b2 :: rest2 =>
        if isCont b2 then
          Char.ofNat ((b - 0xC0) * 0x40 + (b2 - 0x80)) :: utf8LossyAux fuel rest2
        else replChar :: utf8LossyAux fuel rest
    else if 0xE0 ≤ b ∧ b ≤ 0xEF then
      match rest with
      | [] => [replChar]
      | b2 :: rest2 =>
        if (if b = 0xE0 then 0xA0 ≤ b2 ∧ b2 < 0xC0
            else if b = 0xED then 0x80 ≤ b2 ∧ b2 < 0xA0
            else isCont b2) then
          match rest2 with
          | [] => [replChar]
          | b3 :: rest3 =>
            if isCont b3 then
              Char.ofNat ((b - 0xE0) * 0x1000 + (b2 - 0x80) * 0x40 + (b3 - 0x80))
                :: utf8LossyAux fuel rest3
            else replChar :: utf8LossyAux fuel rest2
        else replChar :: utf8LossyAux fuel rest
    else if 0xF0 ≤ b ∧ b ≤ 0xF4 then
      match rest with
      | [] => [replChar]
      | b2 :: rest2 =>
        if (if b = 0xF0 then 0x90 ≤ b2 ∧ b2 < 0xC0
            else if b = 0xF4 then 0x80 ≤ b2 ∧ b2 < 0x90
            else isCont b2) then
          match rest2 with
          | [] => [replChar]
          | b3 :: rest3 =>
            if isCont b3 then
              match rest3 with
              | [] => [replChar]
              | b4 :: rest4 =>
                if isCont b4 then
                  Char.ofNat ((b - 0xF0) * 0x40000 + (b2 - 0x80) * 0x1000 +
                      (b3 - 0x80) * 0x40 + (b4 - 0x80)) :: utf8LossyAux fuel rest4
                else replChar :: utf8LossyAux fuel rest3
            else replChar :: utf8LossyAux fuel rest2
        else replChar :: utf8LossyAux fuel rest
    else replChar :: utf8LossyAux fuel rest

def utf8Lossy (bs : List Nat) : String := String.mk (utf8LossyAux bs.length bs)

/-- The contents of the Rust `let mut buffer = [0; 4]` after `read`
delivered the byte prefix `bs` (`bs.length ≤ 4`): the delivered bytes
followed by the untouched zero initialisation. -/
def pad4 (bs : List Nat) : List Nat := (bs ++ List.replicate 4 0).take 4

/-! ### The opaque rules engine (`chess_lib::chess`) -/

inductive ChessColor where
  | white
  | black
deriving DecidableEq

/-- The interface of `chess_lib::chess::Board` consumed by main.rs:
`default_board`, `turn`, `move_piece`, `get_piece`, `save`, `load`,
plus the `to_string` conversions of errors and pieces.  `move_piece`
and `load` return the updated board; on error the board is unchanged. -/
structure Engine (B P E : Type) where
  default_board : Except E B
  turn : B → ChessColor
  move_piece : B → String → Except E B
  get_piece : B → Nat → Nat → Option P
  save : B → String → Except E Unit
  load : B → String → Except E B
  err_string : E → String
  piece_string : P → String

/-! ### Loop iterations -/

/-- Trace of engine / stream interactions performed by one loop
iteration, in program order. -/
inductive Ev where
  | applyMove (tok : String)
  | sendToken (tok : String)
  | readFrame (bytes : List Nat)
  | saveGame (file : String)
  | loadGame (file : String)
deriving DecidableEq

/-- Result of one loop iteration: continue with new state, `break`,
return `Err` via `?`, or abort via a panicking `unwrap`. -/
inductive Outcome (B E : Type) where
  | next (b : B) (err : Option String)
  | brk
  | fatal (e : E)
  | aborted
deriving DecidableEq

def Outcome.isFatal {B E : Type} : Outcome B E → Bool
  | .fatal _ => true
  | _ => false

def Outcome.isNext {B E : Type} : Outcome B E → Bool
  | .next _ _ => true
  | _ => false

/-- `error = match board.move_piece(&input) { Ok(_) => None, Err(e) =>
Some(e.to_string()) }`: the updated board together with the new pending
error. -/
def applyOutcome {B P E : Type} (en : Engine B P E) (b : B) (tok : String) :
    B × Option String :=
  match en.move_piece b tok with
  | .ok b' => (b', none)
  | .error e => (b, some (en.err_string e))

/-- One iteration of the `server` (Host) connection loop.  `line` is the
stdin line, `wr` the result of `stream.write_all`, `rd` the result of
`stream.read` (the bytes it delivered into the 4-byte buffer). -/
def serverIteration {B P E : Type} (en : Engine B P E) (b : B)
    (err : Option String) (line : String) (wr : Except E Unit)
    (rd : Except E (List Nat)) : Outcome B E × List Ev :=
  if en.turn b = ChessColor.white then
    let input := rustTrim line
    match wr with
    | .error e => (Outcome.fatal e, [Ev.sendToken input])
    | .ok _ =>
      let pr := applyOutcome en b input
      (Outcome.next pr.1 pr.2, [Ev.sendToken input, Ev.applyMove input])
  else
    match rd with
    | .error _ => (Outcome.aborted, [])
    | .ok bs =>
      let input := utf8Lossy (pad4 bs)
      let pr := applyOutcome en b input
      (Outcome.next pr.1 pr.2, [Ev.readFrame bs, Ev.applyMove input])

/-- One iteration of the `client` (Remote) loop.  `rd` is the result of
`stream.read_exact`, which on success has filled all 4 buffer bytes. -/
def clientIteration {B P E : Type} (en : Engine B P E) (b : B)
    (err : Option String) (line : String) (wr : Except E Unit)
    (rd : Except E (List Nat)) : Outcome B E × List Ev :=
  if en.turn b = ChessColor.white then
    match rd with
    | .error e => (Outcome.fatal e, [])
    | .ok bs =>
      let input := utf8Lossy (pad4 bs)
      let pr := applyOutcome en b input
      (Outcome.next pr.1 pr.2, [Ev.readFrame bs, Ev.applyMove input])
  else
    let input := rustTrim line
    match wr with
    | .error e => (Outcome.fatal e, [Ev.sendToken input])
    | .ok _ =>
      let pr := applyOutcome en b input
      (Outcome.next pr.1 pr.2, [Ev.sendToken input, Ev.applyMove input])

def quitToks : List String := ["q", "quit", "exit"]

/-- One iteration of the `singleplayer` loop on the stdin line `line`. -/
def singleIteration {B P E : Type} (en : Engine B P E) (b : B)
    (err : Option String) (line : String) : Outcome B E × List Ev :=
  match splitWS (rustTrim line) with
  | [] => (Outcome.next b err, [])
  | t :: rest =>
    if quitToks.contains t then (Outcome.brk, [])
    else if t = "save" then
      let fn := rest.headD "game.txt"
      match en.save b fn with
      | .ok _ => (Outcome.next b err, [Ev.saveGame fn])
      | .error e => (Outcome.fatal e, [Ev.saveGame fn])
    else if t = "load" then
      let fn := rest.headD "game.txt"
      match en.load b fn with
      | .ok b' => (Outcome.next b' err, [Ev.loadGame fn])
      | .error e => (Outcome.fatal e, [Ev.loadGame fn])
    else
      let pr := applyOutcome en b t
      (Outcome.next pr.1 pr.2, [Ev.applyMove t])

/-! ### Loops and process exit -/

inductive LoopRes (B E : Type) where
  | ok
  | fatal (e : E)
  | aborted
  | stuck (b : B) (err : Option String)
deriving DecidableEq

/-- Per-iteration environment of a networked loop. -/
structure NetIn (E : Type) where
  line : String
  wr : Except E Unit
  rd : Except E (List Nat)

def singleLoop {B P E : Type} (en : Engine B P E) :
    B → Option String → List String → LoopRes B E
  | b, err, [] => .stuck b err
  | b, err, line :: rest =>
    match (singleIteration en b err line).1 with
    | .next b' err' => singleLoop en b' err' rest
    | .brk => .ok
    | .fatal e => .fatal e
    | .aborted => .aborted

def serverLoop {B P E : Type} (en : Engine B P E) :
    B → Option String → List (NetIn E) → LoopRes B E
  | b, err, [] => .stuck b err
  | b, err, i :: rest =>
    match (serverIteration en b err i.line i.wr i.rd).1 with
    | .next b' err' => serverLoop en b' err' rest
    | .brk => .ok
    | .fatal e => .fatal e
    | .aborted => .aborted

def clientLoop {B P E : Type} (en : Engine B P E) :
    B → Option String → List (NetIn E) → LoopRes B E
  | b, err, [] => .stuck b err
  | b, err, i :: rest =>
    match (clientIteration en b err i.line i.wr i.rd).1 with
    | .next b' err' => clientLoop en b' err' rest
    | .brk => .ok
    | .fatal e => .fatal e
    | .aborted => .aborted

/-- `singleplayer()` called from `main`: fresh default board, no pending
error, then the loop. -/
def singleRun {B P E : Type} (en : Engine B P E) (script : List String) :
    LoopRes B E :=
  match en.default_board with
  | .error e => .fatal e
  | .ok b => singleLoop en b none script

/-- Process exit status of `main` for a loop result: `Ok(())` exits 0,
a propagated `Err` exits 1, a panic aborts with 101. -/
def exitOf {B E : Type} : LoopRes B E → Nat
  | .ok => 0
  | .fatal _ => 1
  | .aborted => 101
  | .stuck _ _ => 0

/-! ### Concrete engines for witnesses and counterexamples -/

def engNat : Engine Nat Nat Nat where
  default_board := .ok 0
  turn := fun b => if b % 2 = 0 then .white else .black
  move_piece := fun b s => if s = "bad" then .error 7 else .ok (b + 1)
  get_piece := fun _ _ _ => none
  save := fun _ _ => .ok ()
  load := fun b _ => .ok b
  err_string := fun e => toString e
  piece_string := fun _ => "P"

def engSaveFail : Engine Nat Nat Nat :=
  { engNat with save := fun _ _ => .error 3 }

def nulToken : String := "\x00\x00\x00\x00"

/-! ### Board renderers (`draw_for_white`, `draw_for_black`)

Terminal output is modelled as a list of lines, each line a list of
styled chunks (one chunk per `print!` of a styled or plain string). -/

/-- The `colored::Color` values used by the renderers. -/
inductive TermColor where
  | white
  | black
  | brightBlue
deriving DecidableEq

structure Chunk where
  text : String
  fg : Option TermColor
  bg : Option TermColor
deriving DecidableEq

def plainC (s : String) : Chunk := ⟨s, none, none⟩

/-- `if (file + rank) % 2 == 0 { Color::White } else { Color::BrightBlue }` -/
def sqColor (f r : Nat) : TermColor :=
  if (f + r) % 2 = 0 then .white else .brightBlue

/-- The chunk printed for the square's occupant: the piece glyph in
black on the square color, or a plain space on the square color. -/
def pieceCell {B P E : Type} (en : Engine B P E) (b : B) (f r : Nat) : Chunk :=
  match en.get_piece b f (r - 1) with
  | some p => ⟨en.piece_string p, some TermColor.black, some (sqColor f r)⟩
  | none => ⟨" ", none, some (sqColor f r)⟩

/-- The padding space printed after the occupant, on the square color. -/
def fillCell (f r : Nat) : Chunk := ⟨" ", none, some (sqColor f r)⟩

/-- The two chunks emitted per square by the inner loop body (identical
in `draw_for_white` and `draw_for_black`). -/
def cellChunks {B P E : Type} (en : Engine B P E) (b : B) (f r : Nat) :
    List Chunk :=
  [pieceCell en b f r, fillCell f r]

def whiteHeader : String := "  ａｂｃｄｅｆｇｈ"
def blackHeader : String := "  ｈｇｆｅｄｃｂａ"

/-- One board row: rank label, the squares of `files` in order, rank
label again. -/
def boardRow {B P E : Type} (en : Engine B P E) (b : B) (files : List Nat)
    (rank : Nat) : List Chunk :=
  plainC (toString rank ++ " ") ::
    (files.flatMap (fun f => cellChunks en b f rank) ++
      [plainC (" " ++ toString rank)])

/-- `draw_for_white`: header `ａ..ｈ`, ranks `8 - rank` for
`rank in 0..8` (i.e. 8 down to 1), files `0..8`. -/
def draw_for_white {B P E : Type} (en : Engine B P E) (b : B) :
    List (List Chunk) :=
  [plainC whiteHeader] ::
    ((List.range 8).map (fun i => boardRow en b (List.range 8) (8 - i)) ++
      [[plainC whiteHeader]])

/-- `draw_for_black`: header `ｈ..ａ`, ranks `1 + rank` for
`rank in 0..8` (i.e. 1 up to 8), files `(0..8).rev()`. -/
def draw_for_black {B P E : Type} (en : Engine B P E) (b : B) :
    List (List Chunk) :=
  [plainC blackHeader] ::
    ((List.range 8).map
        (fun i => boardRow en b (List.range 8).reverse (1 + i)) ++
      [[plainC blackHeader]])

/-! ### Observations on rendered output -/

/-- The 8 board rows of a rendering (header and footer stripped). -/
def boardRows (out : List (List Chunk)) : List (List Chunk) :=
  (out.drop 1).dropLast

/-- The square chunks of a row (rank labels stripped). -/
def rowCells (row : List Chunk) : List Chunk := (row.drop 1).dropLast

/-- Pair up consecutive chunks: each square contributes exactly two. -/
def chunkPairs : List Chunk → List (Chunk × Chunk)
  | a :: c :: rest => (a, c) :: chunkPairs rest
  | _ => []

/-- The per-square chunk pairs of the whole rendering, in emission
order. -/
def bodyCellPairs (out : List (List Chunk)) : List (Chunk × Chunk) :=
  (boardRows out).flatMap (fun r => chunkPairs (rowCells r))

def rankLabels (out : List (List Chunk)) : List String :=
  (boardRows out).map (fun r => (r.headD (plainC "")).text)

def headerText (out : List (List Chunk)) : String :=
  ((out.headD []).headD (plainC "")).text

/-- The `(file, rank)` pairs in `draw_for_white` emission order. -/
def whiteSquares : List (Nat × Nat) :=
  (List.range 8).flatMap (fun i => (List.range 8).map (fun f => (f, 8 - i)))

/-- The `(file, rank)` pairs in `draw_for_black` emission order. -/
def blackSquares : List (Nat × Nat) :=
  (List.range 8).flatMap
    (fun i => (List.range 8).reverse.map (fun f => (f, 1 + i)))

def cellPairAt {B P E : Type} (en : Engine B P E) (b : B) (p : Nat × Nat) :
    Chunk × Chunk :=
  (pieceCell en b p.1 p.2, fillCell p.1 p.2)

/-! ### Renderer lemmas -/

example : rustTrim "e2e4\n" = "e2e4" := by decide
example : splitWS (rustTrim " save  a.txt ") = ["save", "a.txt"] := by decide
example : utf8Lossy (pad4 []) = nulToken := by decide

lemma chunkPairs_flatMap_two {α : Type} (l : List α) (f g : α → Chunk) :
    chunkPairs (l.flatMap fun x => [f x, g x]) = l.map (fun x => (f x, g x)) := by
  induction l with
  | nil => rfl
  | cons x xs ih => simpa [chunkPairs] using ih

lemma rowCells_boardRow {B P E : Type} (en : Engine B P E) (b : B)
    (files : List Nat) (rank : Nat) :
    rowCells (boardRow en b files rank) =
      files.flatMap (fun f => cellChunks en b f rank) := by
  simp [rowCells, boardRow, List.dropLast_concat]

lemma boardRows_white {B P E : Type} (en : Engine B P E) (b : B) :
    boardRows (draw_for_white en b) =
      (List.range 8).map (fun i => boardRow en b (List.range 8) (8 - i)) := by
  simp [boardRows, draw_for_white, List.dropLast_concat]

lemma boardRows_black {B P E : Type} (en : Engine B P E) (b : B) :
    boardRows (draw_for_black en b) =
      (List.range 8).map
        (fun i => boardRow en b (List.range 8).reverse (1 + i)) := by
  simp [boardRows, draw_for_black, List.dropLast_concat]

lemma bodyCellPairs_white {B P E : Type} (en : Engine B P E) (b : B) :
    bodyCellPairs (draw_for_white en b) = whiteSquares.map (cellPairAt en b) := by
  simp only [bodyCellPairs, boardRows_white, whiteSquares, List.flatMap_map,
    List.map_flatMap, rowCells_boardRow, cellChunks, chunkPairs_flatMap_two,
    List.map_map]
  rfl

lemma bodyCellPairs_black {B P E : Type} (en : Engine B P E) (b : B) :
    bodyCellPairs (draw_for_black en b) = blackSquares.map (cellPairAt en b) := by
  simp only [bodyCellPairs, boardRows_black, blackSquares, List.flatMap_map,
    List.map_flatMap, rowCells_boardRow, cellChunks, chunkPairs_flatMap_two,
    List.map_map]
  rfl

lemma blackSquares_eq_reverse : blackSquares = whiteSquares.reverse := by decide

/-- C9: the black-bottom rendering covers the same 64 squares as the
white-bottom one, emitted in the exactly reversed order (ranks 1..8
with files h..a versus ranks 8..1 with files a..h), each rendered by
the same per-square function; shading is `(file + rank) % 2` and the
glyph is the occupying piece's in both; file and rank labels are
mirrored. -/
theorem draw_black_mirrors_white {B P E : Type} (en : Engine B P E) (b : B) :
    bodyCellPairs (draw_for_black en b) =
        (bodyCellPairs (draw_for_white en b)).reverse
    ∧ bodyCellPairs (draw_for_white en b) = whiteSquares.map (cellPairAt en b)
    ∧ bodyCellPairs (draw_for_black en b) =
        whiteSquares.reverse.map (cellPairAt en b)
    ∧ whiteSquares.length = 64 ∧ whiteSquares.Nodup
    ∧ (∀ f r : Nat,
        (pieceCell en b f r).bg =
            some (if (f + r) % 2 = 0 then TermColor.white else TermColor.brightBlue)
          ∧ (fillCell f r).bg =
            some (if (f + r) % 2 = 0 then TermColor.white else TermColor.brightBlue))
    ∧ (∀ f r : Nat,
        (pieceCell en b f r).text =
          (match en.get_piece b f (r - 1) with
           | some p => en.piece_string p
           | none => " "))
    ∧ (headerText (draw_for_black en b)).data.drop 2 =
        ((headerText (draw_for_white en b)).data.drop 2).reverse
    ∧ rankLabels (draw_for_white en b) =
        ["8 ", "7 ", "6 ", "5 ", "4 ", "3 ", "2 ", "1 "]
    ∧ rankLabels (draw_for_black en b) =
        ["1 ", "2 ", "3 ", "4 ", "5 ", "6 ", "7 ", "8 "] := by
  refine ⟨?_, bodyCellPairs_white en b, ?_, by decide, by decide, ?_, ?_, ?_, ?_, ?_⟩
  · rw [bodyCellPairs_black, bodyCellPairs_white, blackSquares_eq_reverse,
      List.map_reverse]
  · rw [bodyCellPairs_black, blackSquares_eq_reverse]
  · intro f r
    constructor
    · unfold pieceCell sqColor
      cases en.get_piece b f (r - 1) <;> rfl
    · rfl
  · intro f r
    unfold pieceCell
    cases en.get_piece b f (r - 1) <;> rfl
  · rfl
  · rfl
  · rfl

/-- C10: rendering is a pure function of the square contents and the
perspective: two boards whose square queries agree everywhere on the
8×8 grid render identically, in both perspectives (in particular,
rendering the same unmutated state twice yields identical output). -/
theorem draw_pure {B P E : Type} (en : Engine B P E) (b1 b2 : B)
    (h : ∀ f r : Nat, f < 8 → r < 8 → en.get_piece b1 f r = en.get_piece b2 f r) :
    draw_for_white en b1 = draw_for_white en b2
    ∧ draw_for_black en b1 = draw_for_black en b2 := by
  have hcell : ∀ f rank : Nat, f < 8 → rank ≤ 8 →
      cellChunks en b1 f rank = cellChunks en b2 f rank := by
    intro f rank hf hr
    have : en.get_piece b1 f (rank - 1) = en.get_piece b2 f (rank - 1) :=
      h f (rank - 1) hf (by omega)
    simp [cellChunks, pieceCell, this]
  have hrow : ∀ (files : List Nat) (rank : Nat), (∀ f ∈ files, f < 8) →
      rank ≤ 8 → boardRow en b1 files rank = boardRow en b2 files rank := by
    intro files rank hfs hr
    unfold boardRow
    have : files.flatMap (fun f => cellChunks en b1 f rank) =
        files.flatMap (fun f => cellChunks en b2 f rank) := by
      induction files with
      | nil => rfl
      | cons x xs ih =>
        simp only [List.flatMap_cons]
        rw [hcell x rank (hfs x (by simp)) hr,
          ih (fun f hf => hfs f (by simp [hf]))]
    rw [this]
  constructor
  · unfold draw_for_white
    congr 1
    congr 1
    refine List.map_congr_left ?_
    intro i hi
    exact hrow (List.range 8) (8 - i) (fun f hf => List.mem_range.mp hf) (by omega)
  · unfold draw_for_black
    congr 1
    congr 1
    refine List.map_congr_left ?_
    intro i hi
    have hi' : i < 8 := List.mem_range.mp hi
    exact hrow (List.range 8).reverse (1 + i)
      (fun f hf => List.mem_range.mp (List.mem_reverse.mp hf)) (by omega)

theorem draw_pure_witness :
    draw_for_white engNat 0 = draw_for_white engNat 0 :=
  (draw_pure engNat 0 0 (fun _ _ _ _ => rfl)).1

/-! ### Claims about the Host loop's own turn (C1) -/

/-- C1 (counterexample to the stated order): on the host's own turn the
trace of one iteration is send-then-apply, not apply-then-send. -/
theorem host_send_precedes_apply_cex :
    (serverIteration engNat 0 none "e2e4\n" (Except.ok ()) (Except.ok [])).2 =
        [Ev.sendToken "e2e4", Ev.applyMove "e2e4"]
    ∧ [Ev.sendToken "e2e4", Ev.applyMove "e2e4"] ≠
        [Ev.applyMove "e2e4", Ev.sendToken "e2e4"] := by
  decide

/-- C1 (amended): on the host's own turn the loop reads a line, trims
it, forwards the raw trimmed token to the peer, and then applies it
locally; the trace is the same whether the local apply succeeds or
fails, so forwarding is unconditional in the apply outcome, and when
the write itself fails the local apply never runs. -/
theorem host_forwards_unconditionally {B P E : Type} (en : Engine B P E)
    (b : B) (err : Option String) (line : String) (rd : Except E (List Nat))
    (hw : en.turn b = ChessColor.white) :
    serverIteration en b err line (Except.ok ()) rd =
      (Outcome.next (applyOutcome en b (rustTrim line)).1
          (applyOutcome en b (rustTrim line)).2,
       [Ev.sendToken (rustTrim line), Ev.applyMove (rustTrim line)])
    ∧ ∀ e : E, serverIteration en b err line (Except.error e) rd =
        (Outcome.fatal e, [Ev.sendToken (rustTrim line)]) := by
  constructor
  · simp [serverIteration, hw]
  · intro e
    simp [serverIteration, hw]

theorem host_forwards_unconditionally_witness :
    serverIteration engNat 0 none "e2e4" (Except.ok ()) (Except.ok []) =
      (Outcome.next 1 none, [Ev.sendToken "e2e4", Ev.applyMove "e2e4"]) :=
  (host_forwards_unconditionally engNat 0 none "e2e4" (Except.ok []) rfl).1

/-! ### Stream error fatality (C2) -/

/-- C2 (counterexample to the stated claim): an error on the host's
4-byte read from the connection makes the iteration abort by panic
(`unwrap`), not return an error from the loop. -/
theorem host_read_error_aborts_cex :
    (serverIteration engNat 1 none "x" (Except.ok ()) (Except.error 5)).1 =
        Outcome.aborted
    ∧ Outcome.isFatal
        ((serverIteration engNat 1 none "x" (Except.ok ()) (Except.error 5)).1) =
        false := by
  decide

/-- C2 (amended): a write error on the host's own turn and a read or
write error in the remote loop make the loop return the error, which
propagates and terminates the session with a nonzero exit; an error on
the host's 4-byte read instead aborts by panic, which is fatal but is
not an error return. -/
theorem stream_error_fatality {B P E : Type} (en : Engine B P E) (bw bb : B)
    (err : Option String) (line : String) (wr : Except E Unit)
    (rd : Except E (List Nat)) (e : E) (rest : List (NetIn E))
    (hw : en.turn bw = ChessColor.white) (hb : en.turn bb = ChessColor.black) :
    (serverIteration en bw err line (Except.error e) rd).1 = Outcome.fatal e
    ∧ serverLoop en bw err (⟨line, Except.error e, rd⟩ :: rest) = LoopRes.fatal e
    ∧ exitOf (LoopRes.fatal e : LoopRes B E) ≠ 0
    ∧ (serverIteration en bb err line wr (Except.error e)).1 = Outcome.aborted
    ∧ Outcome.isFatal ((serverIteration en bb err line wr (Except.error e)).1) =
        false
    ∧ serverLoop en bb err (⟨line, wr, Except.error e⟩ :: rest) = LoopRes.aborted
    ∧ (clientIteration en bw err line wr (Except.error e)).1 = Outcome.fatal e
    ∧ clientLoop en bw err (⟨line, wr, Except.error e⟩ :: rest) = LoopRes.fatal e
    ∧ (clientIteration en bb err line (Except.error e) rd).1 = Outcome.fatal e
    ∧ clientLoop en bb err (⟨line, Except.error e, rd⟩ :: rest) =
        LoopRes.fatal e := by
  refine ⟨?_, ?_, by simp [exitOf], ?_, ?_, ?_, ?_, ?_, ?_, ?_⟩ <;>
    simp [serverIteration, clientIteration, serverLoop, clientLoop,
      Outcome.isFatal, hw, hb]

theorem stream_error_fatality_witness :
    (serverIteration engNat 0 none "x" (Except.error 5) (Except.ok [])).1 =
      Outcome.fatal 5 :=
  (stream_error_fatality engNat 0 1 none "x" (Except.ok ()) (Except.ok []) 5 []
    rfl rfl).1

/-! ### Reading the 4-byte move frame (C3, C4) -/

/-- C3 (counterexample to the stated claim): when the connection
delivers only 2 bytes, the host proceeds: it decodes the zero-padded
buffer and submits the resulting token to the rules engine. -/
theorem host_short_read_proceeds_cex :
    serverIteration engNat 1 none "" (Except.ok ()) (Except.ok [101, 50]) =
      (Outcome.next 2 none,
       [Ev.readFrame [101, 50], Ev.applyMove "e2\x00\x00"])
    ∧ [101, 50].length < 4 := by
  decide

lemma pad4_of_length_four (bs : List Nat) (h : bs.length = 4) : pad4 bs = bs := by
  rw [pad4, ← h, List.take_left]

/-- C3 (amended): the Remote reads exactly 4 bytes per expected ply
(`read_exact` either fills the whole buffer or fails the loop with an
error), while the Host issues a single `read` of at most 4 bytes and
proceeds to decode the zero-padded buffer even when fewer than 4 bytes
were delivered. -/
theorem read_exact_four_bytes {B P E : Type} (en : Engine B P E) (bw bb : B)
    (err : Option String) (line : String) (wr : Except E Unit)
    (bs bs2 : List Nat) (e : E)
    (hw : en.turn bw = ChessColor.white) (hb : en.turn bb = ChessColor.black)
    (h4 : bs.length = 4) :
    clientIteration en bw err line wr (Except.ok bs) =
      (Outcome.next (applyOutcome en bw (utf8Lossy bs)).1
          (applyOutcome en bw (utf8Lossy bs)).2,
       [Ev.readFrame bs, Ev.applyMove (utf8Lossy bs)])
    ∧ clientIteration en bw err line wr (Except.error e) = (Outcome.fatal e, [])
    ∧ serverIteration en bb err line wr (Except.ok bs2) =
      (Outcome.next (applyOutcome en bb (utf8Lossy (pad4 bs2))).1
          (applyOutcome en bb (utf8Lossy (pad4 bs2))).2,
       [Ev.readFrame bs2, Ev.applyMove (utf8Lossy (pad4 bs2))]) := by
  refine ⟨?_, ?_, ?_⟩ <;>
    simp [clientIteration, serverIteration, hw, hb, pad4_of_length_four bs h4]

theorem read_exact_four_bytes_witness :
    clientIteration engNat 0 none "" (Except.ok ())
        (Except.ok [101, 50, 101, 52]) =
      (Outcome.next 1 none,
       [Ev.readFrame [101, 50, 101, 52], Ev.applyMove "e2e4"]) :=
  (read_exact_four_bytes engNat 0 1 none "" (Except.ok ()) [101, 50, 101, 52]
    [] 5 rfl rfl rfl).1

lemma utf8_pad_nil : utf8Lossy (pad4 []) = nulToken := by decide

/-- C4: when the peer closes the connection, the host's `read` returns
successfully having delivered zero bytes; the zero-filled buffer is
decoded to a token of four NUL characters, that token is submitted to
the rules engine's apply, the iteration continues, and the loop
repeats — peer disconnection is never detected. -/
theorem host_eof_undetected {B P E : Type} (en : Engine B P E) (b : B)
    (err : Option String) (line : String) (wr : Except E Unit)
    (rest : List (NetIn E)) (hb : en.turn b = ChessColor.black) :
    serverIteration en b err line wr (Except.ok []) =
      (Outcome.next (applyOutcome en b nulToken).1 (applyOutcome en b nulToken).2,
       [Ev.readFrame [], Ev.applyMove nulToken])
    ∧ Outcome.isNext ((serverIteration en b err line wr (Except.ok [])).1) = true
    ∧ serverLoop en b err (⟨line, wr, Except.ok []⟩ :: rest) =
        serverLoop en (applyOutcome en b nulToken).1
          (applyOutcome en b nulToken).2 rest := by
  have h1 : serverIteration en b err line wr (Except.ok []) =
      (Outcome.next (applyOutcome en b nulToken).1 (applyOutcome en b nulToken).2,
       [Ev.readFrame [], Ev.applyMove nulToken]) := by
    simp [serverIteration, hb, utf8_pad_nil]
  refine ⟨h1, ?_, ?_⟩
  · rw [h1]
    rfl
  · simp [serverLoop, h1]

theorem host_eof_undetected_witness :
    serverIteration engNat 1 none "" (Except.ok ()) (Except.ok []) =
      (Outcome.next 2 none, [Ev.readFrame [], Ev.applyMove nulToken]) :=
  (host_eof_undetected engNat 1 none "" (Except.ok ()) [] rfl).1

/-! ### The decode step does not trim (C5) -/

/-- C5 (counterexample to the stated claim): a received frame with a
trailing space is submitted to apply untrimmed: the token passed is
"e2e " and not its trimmed form. -/
theorem decode_no_trim_cex :
    (clientIteration engNat 0 none "" (Except.ok ())
        (Except.ok [101, 50, 101, 32])).2 =
      [Ev.readFrame [101, 50, 101, 32], Ev.applyMove "e2e "]
    ∧ rustTrim "e2e " ≠ "e2e " := by
  decide

/-- C5 (amended): in both roles, the received frame is decoded by lossy
UTF-8 conversion of the 4-byte buffer and passed to apply exactly as
decoded — no trailing whitespace or control bytes are trimmed. -/
theorem decode_passes_raw {B P E : Type} (en : Engine B P E) (bw bb : B)
    (err : Option String) (line : String) (wr : Except E Unit) (bs : List Nat)
    (hw : en.turn bw = ChessColor.white) (hb : en.turn bb = ChessColor.black) :
    (clientIteration en bw err line wr (Except.ok bs)).2 =
        [Ev.readFrame bs, Ev.applyMove (utf8Lossy (pad4 bs))]
    ∧ (serverIteration en bb err line wr (Except.ok bs)).2 =
        [Ev.readFrame bs, Ev.applyMove (utf8Lossy (pad4 bs))]
    ∧ utf8Lossy (pad4 [101, 50, 101, 32]) = "e2e "
    ∧ utf8Lossy (pad4 [101, 50]) = "e2\x00\x00" := by
  refine ⟨?_, ?_, by decide, by decide⟩ <;>
    simp [clientIteration, serverIteration, hw, hb]

theorem decode_passes_raw_witness :
    (clientIteration engNat 0 none "" (Except.ok ())
        (Except.ok [101, 50, 101, 32])).2 =
      [Ev.readFrame [101, 50, 101, 32],
       Ev.applyMove (utf8Lossy (pad4 [101, 50, 101, 32]))] :=
  (decode_passes_raw engNat 0 1 none "" (Except.ok ()) [101, 50, 101, 32]
    rfl rfl).1

/-! ### Save / load in the local loop (C6) -/

/-- C6 (counterexample to the stated claim): a failing save makes the
iteration return the error — the loop terminates fatally instead of
continuing with the failure as the Pending Error. -/
theorem save_failure_fatal_cex :
    singleIteration engSaveFail 0 none "save" =
        (Outcome.fatal 3, [Ev.saveGame "game.txt"])
    ∧ Outcome.isNext ((singleIteration engSaveFail 0 none "save").1) = false
    ∧ singleLoop engSaveFail 0 none ["save"] = LoopRes.fatal 3 := by
  decide

/-- C6 (amended): `save <file>` / `load <file>` use the default
filename "game.txt" when none is supplied; on success the loop
continues with the Pending Error unchanged (and, for save, the state
unchanged, so side-to-move is unchanged); a failure of the persistence
operation is not surfaced as the Pending Error — it propagates via `?`
and fatally terminates the loop with a nonzero exit. -/
theorem persistence_default_and_fatal {B P E : Type} (en : Engine B P E)
    (b b' : B) (err : Option String) (line line2 : String)
    (args args2 : List String) (e : E) (rest : List String)
    (hs : splitWS (rustTrim line) = "save" :: args)
    (hl : splitWS (rustTrim line2) = "load" :: args2) :
    (en.save b (args.headD "game.txt") = Except.ok () →
        singleIteration en b err line =
          (Outcome.next b err, [Ev.saveGame (args.headD "game.txt")]))
    ∧ (en.save b (args.headD "game.txt") = Except.error e →
        singleIteration en b err line =
            (Outcome.fatal e, [Ev.saveGame (args.headD "game.txt")])
          ∧ singleLoop en b err (line :: rest) = LoopRes.fatal e
          ∧ exitOf (LoopRes.fatal e : LoopRes B E) = 1)
    ∧ (en.load b (args2.headD "game.txt") = Except.ok b' →
        singleIteration en b err line2 =
          (Outcome.next b' err, [Ev.loadGame (args2.headD "game.txt")]))
    ∧ (en.load b (args2.headD "game.txt") = Except.error e →
        singleIteration en b err line2 =
            (Outcome.fatal e, [Ev.loadGame (args2.headD "game.txt")])
          ∧ singleLoop en b err (line2 :: rest) = LoopRes.fatal e) := by
  have hqs : ("save" : String) ∉ quitToks := by decide
  have hql : ("load" : String) ∉ quitToks := by decide
  refine ⟨fun h => ?_, fun h => ⟨?_, ?_, rfl⟩, fun h => ?_, fun h => ⟨?_, ?_⟩⟩ <;>
    simp_all [singleIteration, singleLoop, hs, hl]

theorem persistence_default_and_fatal_witness :
    singleIteration engSaveFail 0 none "save" =
        (Outcome.fatal 3, [Ev.saveGame "game.txt"])
      ∧ singleLoop engSaveFail 0 none ["save"] = LoopRes.fatal 3
      ∧ exitOf (LoopRes.fatal 3 : LoopRes Nat Nat) = 1 :=
  (persistence_default_and_fatal engSaveFail 0 0 none "save" "load" [] [] 3 []
    (by decide) (by decide)).2.1 rfl

/-! ### Pending Error discipline after apply (C7) -/

/-- C7: in all three loop variants, every move attempt replaces the
previous Pending Error with the outcome of that attempt, regardless of
the previous value: the new Pending Error is `none` iff the apply
succeeded, and on failure it is exactly the failure's description. -/
theorem apply_sets_pending_error {B P E : Type} :
    (∀ (en : Engine B P E) (b : B) (err : Option String) (line t : String)
        (ts : List String), splitWS (rustTrim line) = t :: ts →
        t ∉ quitToks → t ≠ "save" → t ≠ "load" →
        singleIteration en b err line =
          (Outcome.next (applyOutcome en b t).1 (applyOutcome en b t).2,
           [Ev.applyMove t]))
    ∧ (∀ (en : Engine B P E) (b : B) (err : Option String) (line : String)
        (rd : Except E (List Nat)), en.turn b = ChessColor.white →
        (serverIteration en b err line (Except.ok ()) rd).1 =
          Outcome.next (applyOutcome en b (rustTrim line)).1
            (applyOutcome en b (rustTrim line)).2)
    ∧ (∀ (en : Engine B P E) (b : B) (err : Option String) (line : String)
        (wr : Except E Unit) (bs : List Nat), en.turn b = ChessColor.black →
        (serverIteration en b err line wr (Except.ok bs)).1 =
          Outcome.next (applyOutcome en b (utf8Lossy (pad4 bs))).1
            (applyOutcome en b (utf8Lossy (pad4 bs))).2)
    ∧ (∀ (en : Engine B P E) (b : B) (err : Option String) (line : String)
        (wr : Except E Unit) (bs : List Nat), en.turn b = ChessColor.white →
        (clientIteration en b err line wr (Except.ok bs)).1 =
          Outcome.next (applyOutcome en b (utf8Lossy (pad4 bs))).1
            (applyOutcome en b (utf8Lossy (pad4 bs))).2)
    ∧ (∀ (en : Engine B P E) (b : B) (err : Option String) (line : String)
        (rd : Except E (List Nat)), en.turn b = ChessColor.black →
        (clientIteration en b err line (Except.ok ()) rd).1 =
          Outcome.next (applyOutcome en b (rustTrim line)).1
            (applyOutcome en b (rustTrim line)).2)
    ∧ (∀ (en : Engine B P E) (b : B) (t : String),
        ((applyOutcome en b t).2 = none ↔
            ∃ b2, en.move_piece b t = Except.ok b2)
        ∧ ∀ e2 : E, en.move_piece b t = Except.error e2 →
            (applyOutcome en b t).2 = some (en.err_string e2)) := by
  refine ⟨?_, ?_, ?_, ?_, ?_, ?_⟩
  · intro en b err line t ts hsp hq hsv hld
    simp [singleIteration, hsp, hq, hsv, hld]
  · intro en b err line rd hw
    simp [serverIteration, hw]
  · intro en b err line wr bs hb
    simp [serverIteration, hb]
  · intro en b err line wr bs hw
    simp [clientIteration, hw]
  · intro en b err line rd hb
    simp [clientIteration, hb]
  · intro en b t
    unfold applyOutcome
    cases h : en.move_piece b t <;> simp

theorem apply_sets_pending_error_witness :
    singleIteration engNat 5 (some "stale") "bad" =
      (Outcome.next 5 (some "7"), [Ev.applyMove "bad"]) :=
  (apply_sets_pending_error (B := Nat) (P := Nat) (E := Nat)).1 engNat 5
    (some "stale") "bad" "bad" [] (by decide) (by decide) (by decide) (by decide)

/-! ### Quit tokens in the local loop (C8) -/

/-- C8: each of "q", "quit" and "exit" terminates the local loop from
any reachable state, with no move application attempted (the trace is
empty), and the process exits with code zero. -/
theorem quit_tokens_terminate {B P E : Type} (en : Engine B P E) (b b0 : B)
    (err : Option String) (s : String) (rest : List String)
    (hq : s = "q" ∨ s = "quit" ∨ s = "exit")
    (hdb : en.default_board = Except.ok b0) :
    singleIteration en b err s = (Outcome.brk, [])
    ∧ singleLoop en b err (s :: rest) = LoopRes.ok
    ∧ singleRun en (s :: rest) = LoopRes.ok
    ∧ exitOf (singleRun en (s :: rest)) = 0 := by
  have h1 : singleIteration en b err s = (Outcome.brk, []) := by
    rcases hq with rfl | rfl | rfl <;> rfl
  have h2 : ∀ b1 : B, ∀ err1 : Option String,
      singleLoop en b1 err1 (s :: rest) = LoopRes.ok := by
    intro b1 err1
    have : singleIteration en b1 err1 s = (Outcome.brk, []) := by
      rcases hq with rfl | rfl | rfl <;> rfl
    simp [singleLoop, this]
  have h3 : singleRun en (s :: rest) = LoopRes.ok := by
    simp [singleRun, hdb, h2]
  exact ⟨h1, h2 b err, h3, by simp [h3, exitOf]⟩

theorem quit_tokens_terminate_witness :
    exitOf (singleRun engNat ["quit"]) = 0 :=
  (quit_tokens_terminate engNat 0 0 none "quit" [] (Or.inr (Or.inl rfl))
    rfl).2.2.2

end ChessCli
